import Mathlib

/-!
Shallow embedding of the perceive-ui theme/effect/zoom manager
(`WavesEffect`, `StyleProperty`, `ThemeAccentProperty`, `Theme`,
`LightTheme`, `DarkTheme`, `AppTheme`).

Conventions of the embedding:
* Browser `localStorage` is a key/value list of strings (`JSStore`);
  `getItem`/`setItem` model `localStorage.getItem`/`setItem`.
* JS numbers are modelled exactly: integers as `ℤ`, fractional values
  as `ℚ`; the JS `NaN` produced by `parseInt`/`parseFloat` on
  non-numeric strings is modelled as `none` in `Option ℤ` / `Option ℚ`.
* `document.documentElement.style` is a key/value list `DocStyle`.
* Timer callbacks (`setTimeout`) are modelled as a list of
  (deadline, task) pairs executed in deadline order, ties broken by
  registration order (the FIFO ordering of the browser timer queue).
-/

namespace PerceiveUI

/-- Persistent key/value storage; models browser `localStorage`. -/
abbrev JSStore := List (String × String)

/-- Models `localStorage.getItem(k)`: `none` is JS `null`. -/
def getItem (s : JSStore) (k : String) : Option String :=
  (s.find? (fun q => q.1 == k)).map Prod.snd

/-- Models `localStorage.setItem(k, v)`: overwrites any previous value. -/
def setItem (s : JSStore) (k v : String) : JSStore :=
  (k, v) :: s.filter (fun q => !(q.1 == k))

/-- The document's style scope (`document.documentElement.style`). -/
abbrev DocStyle := List (String × String)

/-- JS truthiness for an optional string: `null` and `""` are falsy.
Models the pattern `localStorage.getItem(key) || default`. -/
def jsOrString (o : Option String) (d : String) : String :=
  match o with
  | none => d
  | some s => if s = "" then d else s

/-- Skip leading whitespace, as `parseInt`/`parseFloat` do. -/
def skipSpaces : List Char → List Char
  | [] => []
  | c :: cs => if c = ' ' then skipSpaces cs else c :: cs

/-- Consume an optional leading sign, returning the sign as `±1`. -/
def parseSign : List Char → ℤ × List Char
  | [] => (1, [])
  | c :: cs =>
    if c = '-' then (-1, cs)
    else if c = '+' then (1, cs)
    else (1, c :: cs)

/-- Numeric value of a big-endian digit-character list. -/
def digitsVal (cs : List Char) : Nat :=
  cs.foldl (fun a c => 10 * a + (c.toNat - 48)) 0

/-- Models JS `parseInt(s, 10)`: skip whitespace, optional sign, then the
longest digit run; `none` models the `NaN` result on no digits. -/
def jsParseIntCore (cs : List Char) : Option ℤ :=
  let cs1 := skipSpaces cs
  let sr := parseSign cs1
  let ds := sr.2.takeWhile Char.isDigit
  if ds.isEmpty then none else some (sr.1 * (digitsVal ds : ℤ))

/-- Models JS `parseInt(s, 10)` on a string. -/
def jsParseInt (s : String) : Option ℤ :=
  jsParseIntCore s.toList

/-- Models JS `parseFloat(s)` (sign, integer digits, optional fraction;
exponent notation is not needed by this code's stored values).
`none` models `NaN`. -/
def jsParseFloatCore (cs : List Char) : Option ℚ :=
  let cs1 := skipSpaces cs
  let sr := parseSign cs1
  let ds := sr.2.takeWhile Char.isDigit
  let rest := sr.2.dropWhile Char.isDigit
  let fs : List Char :=
    match rest with
    | c :: cs3 => if c = '.' then cs3.takeWhile Char.isDigit else []
    | [] => []
  if ds.isEmpty && fs.isEmpty then none
  else some ((sr.1 : ℚ) * ((digitsVal ds : ℚ) + (digitsVal fs : ℚ) / (10 : ℚ) ^ fs.length))

/-- Models JS `parseFloat(s)` on a string. -/
def jsParseFloat (s : String) : Option ℚ :=
  jsParseFloatCore s.toList

/-- The character for a single decimal digit. -/
def digitChar (d : Nat) : Char :=
  match d with
  | 0 => '0'
  | 1 => '1'
  | 2 => '2'
  | 3 => '3'
  | 4 => '4'
  | 5 => '5'
  | 6 => '6'
  | 7 => '7'
  | 8 => '8'
  | _ => '9'

/-- Little-endian decimal digits, by fuel-bounded structural recursion
so that the kernel can evaluate it; `fuel ≥ n` always suffices. -/
def natDigitsRevFuel : Nat → Nat → List Nat
  | 0, n => [n]
  | fuel + 1, n => if n < 10 then [n] else n % 10 :: natDigitsRevFuel fuel (n / 10)

/-- Little-endian decimal digits of a natural number. -/
def natToDigitsRev (n : Nat) : List Nat :=
  natDigitsRevFuel n n

/-- Value of a little-endian digit list (proof helper). -/
def valRev : List Nat → Nat
  | [] => 0
  | d :: ds => d + 10 * valRev ds

/-- Bit length of a natural number, by fuel-bounded recursion
(`fuel ≥ n` suffices). -/
def bitsFuel : Nat → Nat → Nat
  | 0, _ => 0
  | fuel + 1, n => if n = 0 then 0 else bitsFuel fuel (n / 2) + 1

/-- Bit length: for `n ≥ 1`, `2 ^ (bits n - 1) ≤ n < 2 ^ bits n`. -/
def bits (n : Nat) : Nat := bitsFuel n n

/-- The binade of a nonzero rational: the exponent `e` with
`2 ^ e ≤ |q| < 2 ^ (e + 1)`, computed from the bit lengths of numerator
and denominator. -/
def binade (q : ℚ) : ℤ :=
  let c : ℤ := (bits q.num.natAbs : ℤ) - (bits q.den : ℤ)
  if (2 : ℚ) ^ c ≤ |q| then c else c - 1

/-- Round a positive rational to the nearest IEEE-754 binary64 value
(53-bit significand, round to nearest, ties to even); normal range. -/
def roundDoublePos (q : ℚ) : ℚ :=
  let e := binade q
  let scale : ℚ := 2 ^ (e - 52)
  let m := q / scale
  let n : ℤ := ⌊m⌋
  let frac := m - (n : ℚ)
  let r : ℤ :=
    if frac < 1 / 2 then n
    else if 1 / 2 < frac then n + 1
    else if n % 2 = 0 then n else n + 1
  (r : ℚ) * scale

/-- Round a rational to the nearest IEEE-754 binary64 value (round to
nearest, ties to even). Models the result of a JS double operation whose
exact value is the argument. -/
def roundDouble (q : ℚ) : ℚ :=
  if q = 0 then 0
  else if q < 0 then - roundDoublePos (-q) else roundDoublePos q

/-- JS `+` on numbers: IEEE-754 binary64 addition (exact sum, rounded). -/
def jsAdd (a b : ℚ) : ℚ := roundDouble (a + b)

/-- JS `-` on numbers: IEEE-754 binary64 subtraction. -/
def jsSub (a b : ℚ) : ℚ := roundDouble (a - b)

/-- Big-endian character list of a natural number's decimal form. -/
def natChars (n : Nat) : List Char :=
  (natToDigitsRev n).reverse.map digitChar

/-- Decimal rendering of a natural number (JS `Number.prototype.toString`
for non-negative integer values). -/
def natToString (n : Nat) : String :=
  String.mk (natChars n)

/-- JS exponential rendering of an integer magnitude `n ≥ 10^21`
(ECMA-262 Number::toString with decimal exponent ≥ 21): the significant
digits with trailing zeros dropped, a `.` after the first digit when
more than one remains, then `e+` and the exponent. -/
def jsExpIntString (n : Nat) : String :=
  let ds := natToDigitsRev n
  let exponent := ds.length - 1
  let sig := (ds.dropWhile (fun d => d == 0)).reverse
  match sig with
  | [] => "0"
  | [d] => String.mk [digitChar d] ++ "e+" ++ natToString exponent
  | d :: rest => String.mk [digitChar d] ++ "." ++ String.mk (rest.map digitChar)
      ++ "e+" ++ natToString exponent

/-- Rendering of an integer number (JS `Number.prototype.toString` for
integer values): plain decimal digits for magnitudes below 10^21,
exponential notation (e.g. `"1e+21"`) from 10^21 on. -/
def intToString (i : ℤ) : String :=
  if i.natAbs < 10 ^ 21 then
    if i < 0 then String.mk ('-' :: natChars i.natAbs) else String.mk (natChars i.natAbs)
  else
    if i < 0 then "-" ++ jsExpIntString i.natAbs else jsExpIntString i.natAbs

/-- JS string interpolation of a possibly-NaN integer number. -/
def jsNumToString (o : Option ℤ) : String :=
  match o with
  | none => "NaN"
  | some i => intToString i

/-- `class StyleProperty`: a name/value property pair. -/
structure StyleProperty where
  property : String
  value : String
deriving DecidableEq

/-- `class ThemeAccentProperty extends StyleProperty`: hue plus the
computed color string; `saturation`/`lightness` are the constructor's
fixed constants. The hue is `Option ℤ` because `getAccentHue` can
produce `NaN`. -/
structure ThemeAccentProperty where
  property : String
  value : String
  hue : Option ℤ
  saturation : Nat
  lightness : Nat
deriving DecidableEq

/-- The template string `hsl(${hue}, ${saturation}%, ${lightness}%)`. -/
def hslTemplate (hue : Option ℤ) (saturation lightness : Nat) : String :=
  "hsl(" ++ jsNumToString hue ++ ", " ++ natToString saturation ++ "%, "
    ++ natToString lightness ++ "%)"

/-- The `ThemeAccentProperty` constructor: saturation 100, lightness 60. -/
def mkThemeAccentProperty (property : String) (hue : Option ℤ) : ThemeAccentProperty :=
  { property := property
    value := hslTemplate hue 100 60
    hue := hue
    saturation := 100
    lightness := 60 }

/-- `ThemeAccentProperty.update(hue)`: recompute the color string from the
new hue with the stored saturation/lightness. -/
def ThemeAccentProperty.update (p : ThemeAccentProperty) (hue : Option ℤ) : ThemeAccentProperty :=
  { property := p.property
    value := hslTemplate hue p.saturation p.lightness
    hue := hue
    saturation := p.saturation
    lightness := p.lightness }

/-- The data carried by a concrete `Theme` subclass instance. -/
structure ThemeData where
  hueKey : String
  backgroundEffectColor : ℤ
  iconFilter : StyleProperty
  themeAccent : ThemeAccentProperty
  fontColor : StyleProperty
  baseColor : StyleProperty
  darkAccent : StyleProperty
  midAccent : StyleProperty
  brightAccent : StyleProperty
deriving DecidableEq

/-- `Theme.getAccentHue()`:
`stored ? parseInt(stored, 10) : 0`; `null` and `""` are falsy and give
the hardcoded `0`; a non-numeric stored string gives `NaN` (`none`). -/
def getAccentHue (store : JSStore) (hueKey : String) : Option ℤ :=
  match getItem store hueKey with
  | none => some 0
  | some stored => if stored = "" then some 0 else jsParseInt stored

/-- `Theme.setProp(styleProp)`: write one variable to the document's
root style scope. -/
def docSetProp (doc : DocStyle) (p : StyleProperty) : DocStyle :=
  (p.property, p.value) :: doc.filter (fun q => !(q.1 == p.property))

/-- View of the accent property as a plain `StyleProperty` for `setProp`. -/
def accentStyleProperty (a : ThemeAccentProperty) : StyleProperty :=
  { property := a.property, value := a.value }

/-- `Theme.setStyleProperties()`: push all seven variables, in source
order. -/
def setStyleProperties (t : ThemeData) (doc : DocStyle) : DocStyle :=
  let d1 := docSetProp doc t.iconFilter
  let d2 := docSetProp d1 (accentStyleProperty t.themeAccent)
  let d3 := docSetProp d2 t.fontColor
  let d4 := docSetProp d3 t.baseColor
  let d5 := docSetProp d4 t.darkAccent
  let d6 := docSetProp d5 t.midAccent
  docSetProp d6 t.brightAccent

/-- `Theme.setAccentHue(hue)`: update the accent property, re-apply that
one variable, persist `hue.toString()` under the theme's hue key. -/
def Theme.setAccentHue (t : ThemeData) (doc : DocStyle) (store : JSStore) (hue : ℤ) :
    ThemeData × DocStyle × JSStore :=
  let acc := ThemeAccentProperty.update t.themeAccent (some hue)
  let t1 := { t with themeAccent := acc }
  (t1, docSetProp doc (accentStyleProperty acc), setItem store t.hueKey (intToString hue))

/-- `new LightTheme()`: field initializers read the accent hue from
storage at construction time. -/
def mkLightTheme (store : JSStore) : ThemeData :=
  { hueKey := "light-accent-hue"
    backgroundEffectColor := 0x9b9b9b
    iconFilter := { property := "--icon-filter", value := "brightness(100%)" }
    themeAccent := mkThemeAccentProperty "--theme-accent" (getAccentHue store "light-accent-hue")
    fontColor := { property := "--font-color", value := "#292929" }
    baseColor := { property := "--base-color", value := "#f5f5f5" }
    darkAccent := { property := "--dark-accent", value := "#9b9b9b" }
    midAccent := { property := "--mid-accent", value := "#efefef" }
    brightAccent := { property := "--bright-accent", value := "#ffffff" } }

/-- `new DarkTheme()`. -/
def mkDarkTheme (store : JSStore) : ThemeData :=
  { hueKey := "dark-accent-hue"
    backgroundEffectColor := 0x202020
    iconFilter := { property := "--icon-filter", value := "brightness(250%)" }
    themeAccent := mkThemeAccentProperty "--theme-accent" (getAccentHue store "dark-accent-hue")
    fontColor := { property := "--font-color", value := "#eaeaea" }
    baseColor := { property := "--base-color", value := "#454545" }
    darkAccent := { property := "--dark-accent", value := "#3c3c3c" }
    midAccent := { property := "--mid-accent", value := "#484848" }
    brightAccent := { property := "--bright-accent", value := "#515151" } }

/-- The underlying Vanta effect instance (`window.VANTA.WAVES(config)`):
its tint color and the rendered element's `style.opacity`
(`none` models the initial unset `''`). -/
structure EffectInstance where
  color : ℤ
  opacity : Option ℚ
deriving DecidableEq

/-- State of the `WavesEffect` wrapper object: the target element, the
config's `color` entry (absent until `createEffect` runs), and the
optional underlying effect instance (`delete this.effect` clears it). -/
structure WavesEffectState where
  element : String
  configColor : Option ℤ
  effect : Option EffectInstance
deriving DecidableEq

/-- `WavesEffect.effectDelay = 50`. -/
def effectDelay : Nat := 50

/-- `WavesEffect.effectInterval = 10`. -/
def effectInterval : Nat := 10

/-- `props['color'] || 0x00000`: `undefined` (and `0`) give `0`. -/
def jsOrInt (o : Option ℤ) (d : ℤ) : ℤ :=
  match o with
  | none => d
  | some x => if x = 0 then d else x

/-- `WavesEffect.createEffect(props)`: store the color in the config and
instantiate the effect; a fresh instance has unset opacity. -/
def WavesEffect.createEffect (w : WavesEffectState) (colorProp : Option ℤ) : WavesEffectState :=
  let c := jsOrInt colorProp 0
  { w with configColor := some c, effect := some { color := c, opacity := none } }

/-- One scheduled `setTimeout` callback of `WavesEffect.destroyEffect`:
a fade step (loop iteration `i`) or the final destroy-and-callback. -/
inductive TimerTask
  | fadeStep (i : Nat)
  | finalDestroy
deriving DecidableEq

/-- The timeouts registered by `WavesEffect.destroyEffect`: fade step `i`
at deadline `delay * i` for `i = 1..interval`, then the final
destroy/postAction callback at deadline `delay * interval`,
in registration order. -/
def destroySchedule (delay interval : Nat) : List (Nat × TimerTask) :=
  ((List.range interval).map fun k => (delay * (k + 1), TimerTask.fadeStep (k + 1)))
    ++ [(delay * interval, TimerTask.finalDestroy)]

/-- Stable insertion into a deadline-sorted timer queue: an event goes
after every already-queued event with an earlier-or-equal deadline
(browser timers with equal deadlines run in registration order). -/
def timerInsert (e : Nat × TimerTask) : List (Nat × TimerTask) → List (Nat × TimerTask)
  | [] => [e]
  | x :: xs => if e.1 ≤ x.1 then e :: x :: xs else x :: timerInsert e xs

/-- Execution order of registered timeouts: sort by deadline, stably. -/
def timerSort : List (Nat × TimerTask) → List (Nat × TimerTask)
  | [] => []
  | x :: xs => timerInsert x (timerSort xs)

/-- One fade step on the rendered element's opacity:
`opacity === ''` is replaced by `1.0 - 1/interval`, otherwise the
current value is decreased by `1/interval`. -/
def fadeOpacity (interval : Nat) (o : Option ℚ) : Option ℚ :=
  let f : ℚ := 1 / (interval : ℚ)
  match o with
  | none => some (1 - f)
  | some x => some (x - f)

/-- The opacity a renderer shows for a stored `style.opacity`: the unset
value `''` renders fully opaque. -/
def effectiveOpacity (o : Option ℚ) : ℚ :=
  o.getD 1

/-- State observed while the destroy timers run: the underlying effect
instance (until `this.effect.destroy(); delete this.effect`) and how
many times `postAction` has been invoked. -/
structure DestroyRunState where
  effect : Option EffectInstance
  postActionCalls : Nat
deriving DecidableEq

/-- Execute one scheduled callback of `WavesEffect.destroyEffect`. -/
def runTask (interval : Nat) (s : DestroyRunState) : TimerTask → DestroyRunState
  | TimerTask.fadeStep _ =>
    match s.effect with
    | some e => { s with effect := some { e with opacity := fadeOpacity interval e.opacity } }
    | none => s
  | TimerTask.finalDestroy =>
    { effect := none, postActionCalls := s.postActionCalls + 1 }

/-- Execute a list of scheduled callbacks in order. -/
def runTasks (interval : Nat) (l : List TimerTask) (s : DestroyRunState) : DestroyRunState :=
  l.foldl (runTask interval) s

/-- `AppTheme.zoom.step = 0.1`: the binary64 double written `0.1`,
which is `3602879701896397 / 2^55`, slightly above 1/10. -/
def zoomStep : ℚ := roundDouble (1 / 10)

/-- `AppTheme.zoom.min = 1` (exactly representable). -/
def zoomMin : ℚ := 1

/-- `AppTheme.zoom.max = 2` (exactly representable). -/
def zoomMax : ℚ := 2

/-- `AppTheme.zoomIn()`: if the factor is below the max, add the step
with IEEE-754 double addition (and persist the new factor). A `NaN`
factor compares false and is left unchanged. Only the factor dynamics
are modelled; the accompanying `localStorage.setItem` writes the new
factor's string form, which no claim reads back. -/
def zoomIn (f : Option ℚ) : Option ℚ :=
  match f with
  | none => none
  | some x => if x < zoomMax then some (jsAdd x zoomStep) else some x

/-- `AppTheme.zoomOut()`: if the factor is above the min, subtract the
step with IEEE-754 double subtraction (and persist the new factor). -/
def zoomOut (f : Option ℚ) : Option ℚ :=
  match f with
  | none => none
  | some x => if zoomMin < x then some (jsSub x zoomStep) else some x

/-- A user zoom action. -/
inductive ZoomOp
  | zin
  | zout
deriving DecidableEq

/-- Apply a sequence of `zoomIn`/`zoomOut` calls. -/
def applyZoomOps (ops : List ZoomOp) (f : Option ℚ) : Option ℚ :=
  ops.foldl (fun z op => match op with
    | ZoomOp.zin => zoomIn z
    | ZoomOp.zout => zoomOut z) f

/-- Observable side effects of `AppTheme.setTheme`. -/
inductive ThemeEvent
  | effectDestroyed
  | effectCreated (color : ℤ)
  | storeWrite (key value : String)
deriving DecidableEq

/-- Result of the JS bracket access `this.theme.themes[mode]` on the
registry object literal: a registry (own-key) theme, a truthy value
inherited from `Object.prototype` (a function or object, not a theme),
or `undefined`. -/
inductive JSLookup
  | themeRef (t : ThemeData)
  | protoRef
  | undef
deriving DecidableEq

/-- What `this.theme.selected` currently holds: a theme instance, an
inherited `Object.prototype` member mistakenly assigned by `setTheme`,
or `undefined`. -/
inductive SelectedTheme
  | themeRef (t : ThemeData)
  | protoRef
  | undef
deriving DecidableEq

/-- The enumerable-by-lookup member names every object literal inherits
from `Object.prototype`; bracket access with these returns a truthy
non-theme value. -/
def objectProtoNames : List String :=
  ["constructor", "hasOwnProperty", "isPrototypeOf", "propertyIsEnumerable",
   "toLocaleString", "toString", "valueOf", "__proto__",
   "__defineGetter__", "__defineSetter__", "__lookupGetter__", "__lookupSetter__"]

/-- In-memory state of an `AppTheme` object: the two registry theme
instances, the selected theme reference, the effect mode and wrapper,
the zoom factor (`none` models `NaN`), plus the storage and document
style the object interacts with. -/
structure AppThemeState where
  themeLight : ThemeData
  themeDark : ThemeData
  themeSelected : SelectedTheme
  effectMode : String
  effectSelected : Option WavesEffectState
  zoomFactor : Option ℚ
  store : JSStore
  doc : DocStyle
deriving DecidableEq

/-- `this.theme.themes[mode]`: the registry literal has exactly the own
keys `"light"` and `"dark"` (in that insertion order) and inherits the
`Object.prototype` members; any other name yields `undefined`. -/
def themesLookup (tl td : ThemeData) (mode : String) : JSLookup :=
  if mode = "light" then JSLookup.themeRef tl
  else if mode = "dark" then JSLookup.themeRef td
  else if mode ∈ objectProtoNames then JSLookup.protoRef
  else JSLookup.undef

/-- Registry lookup on an `AppTheme` state. -/
def lookupTheme (st : AppThemeState) (mode : String) : JSLookup :=
  themesLookup st.themeLight st.themeDark mode

/-- The `AppTheme` constructor. `Object.keys(this.theme.themes)[0]` is
`"light"` (insertion order). The stored mode, if present and non-empty,
is adopted as-is; a non-registry mode (whether it hits `undefined` or an
inherited `Object.prototype` member) then makes
`this.theme.selected.setStyleProperties()` throw, modelled as `none`.
The stored zoom string goes through `parseFloat`. -/
def appThemeInit (store : JSStore) (doc : DocStyle) : Option AppThemeState :=
  let themeLight := mkLightTheme store
  let themeDark := mkDarkTheme store
  let mode := jsOrString (getItem store "mode") "light"
  match themesLookup themeLight themeDark mode with
  | JSLookup.themeRef sel =>
    let doc1 := setStyleProperties sel doc
    let waves0 : WavesEffectState := { element := "#perceive", configColor := none, effect := none }
    let waves1 := WavesEffect.createEffect waves0 (some sel.backgroundEffectColor)
    let zf : Option ℚ :=
      match getItem store "zoom" with
      | none => some 1
      | some s => if s = "" then some 1 else jsParseFloat s
    some { themeLight := themeLight
           themeDark := themeDark
           themeSelected := SelectedTheme.themeRef sel
           effectMode := mode
           effectSelected := some waves1
           zoomFactor := zf
           store := store
           doc := doc1 }
  | _ => none

/-- `AppTheme.isEffectActive()`: `Boolean(this.effect.selected)`. -/
def AppTheme.isEffectActive (st : AppThemeState) : Bool :=
  st.effectSelected.isSome

/-- `AppTheme.destroyEffect(postAction)`: delegate to the wrapper's
fade-then-destroy (which only registers the timeouts and returns), then
synchronously `delete this.effect.selected`. Returns the new state and
the registered (not yet executed) timer schedule; `none` models the
`TypeError` of calling through an absent wrapper. -/
def AppTheme.destroyEffect (st : AppThemeState) :
    Option (AppThemeState × List (Nat × TimerTask)) :=
  match st.effectSelected with
  | none => none
  | some _ =>
    some ({ st with effectSelected := none }, destroySchedule effectDelay effectInterval)

/-- Outcome of `AppTheme.setTheme`: normal return, or a thrown
`TypeError` (`thrown`) carrying the state as already mutated when the
exception escaped, plus the observable effect/storage events so far. -/
inductive SetThemeResult
  | ok (st : AppThemeState) (events : List ThemeEvent)
  | thrown (st : AppThemeState) (events : List ThemeEvent)
deriving DecidableEq

/-- The state carried by a `SetThemeResult`. -/
def SetThemeResult.state : SetThemeResult → AppThemeState
  | SetThemeResult.ok st _ => st
  | SetThemeResult.thrown st _ => st

/-- The events carried by a `SetThemeResult`. -/
def SetThemeResult.events : SetThemeResult → List ThemeEvent
  | SetThemeResult.ok _ ev => ev
  | SetThemeResult.thrown _ ev => ev

/-- Whether the call threw. -/
def SetThemeResult.threw : SetThemeResult → Bool
  | SetThemeResult.ok _ _ => false
  | SetThemeResult.thrown _ _ => true

/-- `AppTheme.setTheme(mode)`: `themes[mode]` is tested for truthiness.
`undefined` (a name neither in the registry nor on `Object.prototype`)
skips the whole body. A truthy inherited `Object.prototype` member
passes the guard: `effect.mode` and `theme.selected` are assigned, and
then `newTheme.setStyleProperties()` throws a `TypeError`, leaving those
two mutations behind. A registry theme proceeds: switch mode and
selected theme, re-apply all variables, and — only when the effect is
active — destroy the inner effect instance immediately and create a new
one tinted for the (new) selected theme; finally persist the mode. Also
returns the list of observable effect/storage events, in order. -/
def AppTheme.setTheme (st : AppThemeState) (mode : String) : SetThemeResult :=
  match lookupTheme st mode with
  | JSLookup.undef => SetThemeResult.ok st []
  | JSLookup.protoRef =>
    SetThemeResult.thrown
      { st with effectMode := mode, themeSelected := SelectedTheme.protoRef } []
  | JSLookup.themeRef newTheme =>
    let st1 := { st with effectMode := mode
                         themeSelected := SelectedTheme.themeRef newTheme
                         doc := setStyleProperties newTheme st.doc }
    let step2 : AppThemeState × List ThemeEvent :=
      if AppTheme.isEffectActive st1 then
        match st1.effectSelected with
        | some w =>
          let w1 := { w with effect := none }
          let w2 := WavesEffect.createEffect w1 (some newTheme.backgroundEffectColor)
          ({ st1 with effectSelected := some w2 },
            [ThemeEvent.effectDestroyed, ThemeEvent.effectCreated newTheme.backgroundEffectColor])
        | none => (st1, [])
      else (st1, [])
    SetThemeResult.ok { step2.1 with store := setItem step2.1.store "mode" mode }
      (step2.2 ++ [ThemeEvent.storeWrite "mode" mode])

/-- A concrete `AppTheme` state as produced by the constructor on empty
storage: light mode, active waves effect, zoom factor 1. -/
def demoWaves : WavesEffectState :=
  { element := "#perceive"
    configColor := some 0x9b9b9b
    effect := some { color := 0x9b9b9b, opacity := none } }

/-- Concrete state used to instantiate theorems with hypotheses. -/
def demoState : AppThemeState :=
  { themeLight := mkLightTheme []
    themeDark := mkDarkTheme []
    themeSelected := SelectedTheme.themeRef (mkLightTheme [])
    effectMode := "light"
    effectSelected := some demoWaves
    zoomFactor := some 1
    store := []
    doc := setStyleProperties (mkLightTheme []) [] }

/-! ## Helper lemmas: decimal printing parses back (JS round trip) -/

lemma digitChar_isDigit {d : Nat} (hd : d < 10) : (digitChar d).isDigit = true := by
  interval_cases d <;> decide

lemma digitChar_toNat {d : Nat} (hd : d < 10) : (digitChar d).toNat - 48 = d := by
  interval_cases d <;> decide

lemma isDigit_ne_space {c : Char} (h : c.isDigit = true) : c ≠ ' ' := by
  intro hc
  subst hc
  exact absurd h (by decide)

lemma isDigit_ne_minus {c : Char} (h : c.isDigit = true) : c ≠ '-' := by
  intro hc
  subst hc
  exact absurd h (by decide)

lemma isDigit_ne_plus {c : Char} (h : c.isDigit = true) : c ≠ '+' := by
  intro hc
  subst hc
  exact absurd h (by decide)

lemma natDigitsRevFuel_ne_nil : ∀ fuel n, natDigitsRevFuel fuel n ≠ [] := by
  intro fuel n
  cases fuel with
  | zero => simp [natDigitsRevFuel]
  | succ fuel =>
    rw [natDigitsRevFuel]
    split <;> simp

lemma natToDigitsRev_ne_nil (n : Nat) : natToDigitsRev n ≠ [] :=
  natDigitsRevFuel_ne_nil n n

lemma natDigitsRevFuel_lt : ∀ fuel n, n ≤ fuel → ∀ d ∈ natDigitsRevFuel fuel n, d < 10 := by
  intro fuel
  induction fuel with
  | zero =>
    intro n hn d hd
    simp only [natDigitsRevFuel, List.mem_singleton] at hd
    omega
  | succ fuel ih =>
    intro n hn d hd
    rw [natDigitsRevFuel] at hd
    split at hd
    · simp only [List.mem_singleton] at hd
      omega
    · simp only [List.mem_cons] at hd
      rcases hd with rfl | hd
      · exact Nat.mod_lt _ (by omega)
      · have hdiv : n / 10 < n := Nat.div_lt_self (by omega) (by omega)
        exact ih (n / 10) (by omega) d hd

lemma natToDigitsRev_lt (n : Nat) : ∀ d ∈ natToDigitsRev n, d < 10 :=
  natDigitsRevFuel_lt n n le_rfl

lemma valRev_natDigitsRevFuel : ∀ fuel n, n ≤ fuel → valRev (natDigitsRevFuel fuel n) = n := by
  intro fuel
  induction fuel with
  | zero =>
    intro n hn
    simp [natDigitsRevFuel, valRev]
  | succ fuel ih =>
    intro n hn
    rw [natDigitsRevFuel]
    split
    · simp [valRev]
    · have hdiv : n / 10 < n := Nat.div_lt_self (by omega) (by omega)
      rw [valRev, ih (n / 10) (by omega)]
      omega

lemma valRev_natToDigitsRev (n : Nat) : valRev (natToDigitsRev n) = n :=
  valRev_natDigitsRevFuel n n le_rfl

lemma foldl_rev_val (l : List Nat) :
    ∀ a : Nat, List.foldl (fun x d => 10 * x + d) a l.reverse = a * 10 ^ l.length + valRev l := by
  induction l with
  | nil => simp [valRev]
  | cons d ds ih =>
    intro a
    rw [List.reverse_cons, List.foldl_append, ih a]
    simp only [List.foldl, valRev, List.length_cons]
    ring

lemma foldl_map_digitChar (l : List Nat) (hl : ∀ d ∈ l, d < 10) :
    ∀ a : Nat,
      List.foldl (fun x c => 10 * x + (c.toNat - 48)) a (l.map digitChar) =
        List.foldl (fun x d => 10 * x + d) a l := by
  induction l with
  | nil => intro a; rfl
  | cons d ds ih =>
    intro a
    simp only [List.map_cons, List.foldl]
    rw [digitChar_toNat (hl d (by simp))]
    exact ih (fun e he => hl e (by simp [he])) _

lemma digitsVal_natChars (n : Nat) : digitsVal (natChars n) = n := by
  unfold digitsVal natChars
  rw [foldl_map_digitChar _ (fun d hd => natToDigitsRev_lt n d (List.mem_reverse.mp hd)),
    foldl_rev_val]
  simp [valRev_natToDigitsRev]

lemma natChars_all_digits (n : Nat) : ∀ c ∈ natChars n, c.isDigit = true := by
  intro c hc
  unfold natChars at hc
  rcases List.mem_map.mp hc with ⟨d, hd, rfl⟩
  exact digitChar_isDigit (natToDigitsRev_lt n d (List.mem_reverse.mp hd))

lemma natChars_ne_nil (n : Nat) : natChars n ≠ [] := by
  unfold natChars
  simp [natToDigitsRev_ne_nil n]

lemma skipSpaces_cons_of_ne {c : Char} (cs : List Char) (h : c ≠ ' ') :
    skipSpaces (c :: cs) = c :: cs := by
  simp [skipSpaces, h]

lemma parseSign_of_not_sign {c : Char} (cs : List Char) (h1 : c ≠ '-') (h2 : c ≠ '+') :
    parseSign (c :: cs) = (1, c :: cs) := by
  simp [parseSign, h1, h2]

lemma takeWhile_eq_self_of_all {p : Char → Bool} :
    ∀ {l : List Char}, (∀ c ∈ l, p c = true) → l.takeWhile p = l := by
  intro l
  induction l with
  | nil => intro _; rfl
  | cons c cs ih =>
    intro h
    rw [List.takeWhile_cons, h c (by simp)]
    simp [ih (fun e he => h e (by simp [he]))]

lemma natChars_isEmpty (n : Nat) : (natChars n).isEmpty = false := by
  obtain ⟨c, cs, hc⟩ := List.exists_cons_of_ne_nil (natChars_ne_nil n)
  rw [hc]
  rfl

lemma jsParseIntCore_natChars (n : Nat) : jsParseIntCore (natChars n) = some (n : ℤ) := by
  obtain ⟨c, cs, hc⟩ := List.exists_cons_of_ne_nil (natChars_ne_nil n)
  have hcd : c.isDigit = true := natChars_all_digits n c (by rw [hc]; simp)
  have hsk : skipSpaces (natChars n) = natChars n := by
    rw [hc]
    exact skipSpaces_cons_of_ne cs (isDigit_ne_space hcd)
  have hps : parseSign (natChars n) = (1, natChars n) := by
    rw [hc]
    exact parseSign_of_not_sign cs (isDigit_ne_minus hcd) (isDigit_ne_plus hcd)
  have htw : (natChars n).takeWhile Char.isDigit = natChars n :=
    takeWhile_eq_self_of_all (natChars_all_digits n)
  simp only [jsParseIntCore, hsk, hps, htw, natChars_isEmpty, Bool.false_eq_true, if_false,
    digitsVal_natChars]
  simp

lemma jsParseInt_intToString (i : ℤ) (hi : i.natAbs < 10 ^ 21) :
    jsParseInt (intToString i) = some i := by
  unfold jsParseInt intToString
  rw [if_pos hi]
  split
  · show jsParseIntCore ('-' :: natChars i.natAbs) = some i
    have hsk : skipSpaces ('-' :: natChars i.natAbs) = '-' :: natChars i.natAbs :=
      skipSpaces_cons_of_ne _ (by decide)
    have hps : parseSign ('-' :: natChars i.natAbs) = (-1, natChars i.natAbs) := by
      simp [parseSign]
    have htw : (natChars i.natAbs).takeWhile Char.isDigit = natChars i.natAbs :=
      takeWhile_eq_self_of_all (natChars_all_digits i.natAbs)
    simp only [jsParseIntCore, hsk, hps, htw, natChars_isEmpty, Bool.false_eq_true, if_false,
      digitsVal_natChars, Option.some.injEq]
    omega
  · show jsParseIntCore (natChars i.natAbs) = some i
    rw [jsParseIntCore_natChars]
    have : ((i.natAbs : ℤ)) = i := by omega
    rw [this]

lemma ne_empty_of_data_ne_nil {s : String} (h : s.data ≠ []) : s ≠ "" := by
  intro he
  rw [he] at h
  exact h rfl

lemma jsExpIntString_ne_empty (n : Nat) : jsExpIntString n ≠ "" := by
  simp only [jsExpIntString]
  split
  · decide
  · apply ne_empty_of_data_ne_nil
    simp [String.data_append]
  · apply ne_empty_of_data_ne_nil
    simp [String.data_append]

lemma intToString_ne_empty (i : ℤ) : intToString i ≠ "" := by
  unfold intToString
  split
  · split
    · intro h
      have h2 : ('-' :: natChars i.natAbs) = ([] : List Char) := congrArg String.data h
      simp at h2
    · intro h
      have h2 : natChars i.natAbs = ([] : List Char) := congrArg String.data h
      exact natChars_ne_nil _ h2
  · split
    · apply ne_empty_of_data_ne_nil
      simp [String.data_append, jsExpIntString_ne_empty]
    · exact jsExpIntString_ne_empty _

lemma getItem_setItem (s : JSStore) (k v : String) : getItem (setItem s k v) k = some v := by
  unfold getItem setItem
  rw [List.find?_cons_of_pos _ (by simp)]
  rfl

lemma toList_mk (l : List Char) : (String.mk l).toList = l := rfl

lemma getAccentHue_setItem (s : JSStore) (k : String) (h : ℤ) (hh : h.natAbs < 10 ^ 21) :
    getAccentHue (setItem s k (intToString h)) k = some h := by
  unfold getAccentHue
  rw [getItem_setItem]
  simp only [intToString_ne_empty h, if_false]
  exact jsParseInt_intToString h hh

/-! ## Helper lemmas: destroy timers, fade arithmetic, zoom grid -/

lemma runTasks_cons (interval : Nat) (t : TimerTask) (ts : List TimerTask) (s : DestroyRunState) :
    runTasks interval (t :: ts) s = runTasks interval ts (runTask interval s t) := rfl

lemma runTask_fade_postActionCalls (interval : Nat) (s : DestroyRunState) (i : Nat) :
    (runTask interval s (TimerTask.fadeStep i)).postActionCalls = s.postActionCalls := by
  rw [runTask]
  cases s.effect <;> rfl

lemma runTasks_postActionCalls (interval : Nat) :
    ∀ (l : List TimerTask) (s : DestroyRunState),
      (runTasks interval l s).postActionCalls =
        s.postActionCalls + l.count TimerTask.finalDestroy := by
  intro l
  induction l with
  | nil => intro s; simp [runTasks]
  | cons t ts ih =>
    intro s
    rw [runTasks_cons, ih]
    cases t with
    | fadeStep i =>
      rw [runTask_fade_postActionCalls]
      simp [List.count_cons]
    | finalDestroy =>
      simp only [runTask]
      simp [List.count_cons]
      omega

lemma fade_iterate : ∀ k : Nat, 1 ≤ k →
    (fadeOpacity 10)^[k] (none : Option ℚ) = some (1 - (k : ℚ) / 10) := by
  intro k
  induction k with
  | zero => intro h; omega
  | succ k ih =>
    intro _
    rcases Nat.eq_zero_or_pos k with rfl | hk
    · norm_num [Function.iterate_succ_apply, fadeOpacity]
    · rw [Function.iterate_succ_apply', ih hk]
      simp only [fadeOpacity, Option.some.injEq]
      push_cast
      ring

lemma applyZoomOps_cons_zin (ops : List ZoomOp) (f : Option ℚ) :
    applyZoomOps (ZoomOp.zin :: ops) f = applyZoomOps ops (zoomIn f) := rfl

lemma applyZoomOps_cons_zout (ops : List ZoomOp) (f : Option ℚ) :
    applyZoomOps (ZoomOp.zout :: ops) f = applyZoomOps ops (zoomOut f) := rfl

lemma bitsFuel_zero : ∀ fuel, bitsFuel fuel 0 = 0 := by
  intro fuel
  cases fuel <;> simp [bitsFuel]

lemma bitsFuel_spec : ∀ fuel n, n ≤ fuel → 1 ≤ n →
    2 ^ (bitsFuel fuel n - 1) ≤ n ∧ n < 2 ^ bitsFuel fuel n := by
  intro fuel
  induction fuel with
  | zero => intro n hn h1; omega
  | succ fuel ih =>
    intro n hn h1
    rw [bitsFuel, if_neg (by omega)]
    rcases Nat.lt_or_ge n 2 with h2 | h2
    · have hn1 : n = 1 := by omega
      subst hn1
      simp [bitsFuel_zero]
    · have hdiv2 : 1 ≤ n / 2 := by omega
      have hdivlt : n / 2 < n := Nat.div_lt_self (by omega) (by omega)
      obtain ⟨hlo, hhi⟩ := ih (n / 2) (by omega) hdiv2
      have hb1 : 1 ≤ bitsFuel fuel (n / 2) := by
        by_contra hb0
        have hz : bitsFuel fuel (n / 2) = 0 := by omega
        rw [hz] at hhi
        omega
      have hpow : 2 * 2 ^ (bitsFuel fuel (n / 2) - 1) = 2 ^ bitsFuel fuel (n / 2) := by
        rw [← pow_succ', Nat.sub_add_cancel hb1]
      have hup : 2 ^ (bitsFuel fuel (n / 2) + 1) = 2 * 2 ^ bitsFuel fuel (n / 2) := by
        rw [pow_succ]
        ring
      have hadd : bitsFuel fuel (n / 2) + 1 - 1 = bitsFuel fuel (n / 2) := by omega
      rw [hadd]
      omega

lemma bits_spec (n : Nat) (h1 : 1 ≤ n) : 2 ^ (bits n - 1) ≤ n ∧ n < 2 ^ bits n :=
  bitsFuel_spec n n le_rfl h1

lemma binade_spec (q : ℚ) (hq : 0 < q) :
    (2 : ℚ) ^ binade q ≤ q ∧ q < 2 ^ (binade q + 1) := by
  have hnum0 : 0 < q.num := Rat.num_pos.mpr hq
  have hnn1 : 1 ≤ q.num.natAbs := by omega
  have hdd1 : 1 ≤ q.den := q.den_pos
  obtain ⟨hnlo, hnhi⟩ := bits_spec q.num.natAbs hnn1
  obtain ⟨hdlo, hdhi⟩ := bits_spec q.den hdd1
  have hbn1 : 1 ≤ bits q.num.natAbs := by
    by_contra hb
    have hz : bits q.num.natAbs = 0 := by omega
    rw [hz] at hnhi
    omega
  have hbd1 : 1 ≤ bits q.den := by
    by_contra hb
    have hz : bits q.den = 0 := by omega
    rw [hz] at hdhi
    omega
  -- move the bit-length bounds into ℚ
  have hnloQ : (2 : ℚ) ^ (bits q.num.natAbs - 1) ≤ (q.num.natAbs : ℚ) := by exact_mod_cast hnlo
  have hnhiQ : ((q.num.natAbs : ℚ)) < 2 ^ bits q.num.natAbs := by exact_mod_cast hnhi
  have hdloQ : (2 : ℚ) ^ (bits q.den - 1) ≤ (q.den : ℚ) := by exact_mod_cast hdlo
  have hdhiQ : ((q.den : ℚ)) < 2 ^ bits q.den := by exact_mod_cast hdhi
  have hdenQ : (0 : ℚ) < (q.den : ℚ) := by exact_mod_cast hdd1
  have habs : |q.num| = q.num := abs_of_pos hnum0
  have hnumQ : ((q.num.natAbs : ℚ)) = (q.num : ℚ) := by
    rw [Int.cast_natAbs, habs]
  have hkey : q * (q.den : ℚ) = (q.num.natAbs : ℚ) := by
    rw [hnumQ]
    exact_mod_cast Rat.mul_den_eq_num q
  -- 2 ^ (c - 1) < q < 2 ^ (c + 1) for c = bits num - bits den
  have hup : q * (2 : ℚ) ^ (bits q.den - 1) < 2 ^ bits q.num.natAbs := by
    calc q * (2 : ℚ) ^ (bits q.den - 1) ≤ q * (q.den : ℚ) :=
          mul_le_mul_of_nonneg_left hdloQ (le_of_lt hq)
      _ = (q.num.natAbs : ℚ) := hkey
      _ < 2 ^ bits q.num.natAbs := hnhiQ
  have hlow : (2 : ℚ) ^ (bits q.num.natAbs - 1) < q * (2 : ℚ) ^ bits q.den := by
    calc (2 : ℚ) ^ (bits q.num.natAbs - 1) ≤ (q.num.natAbs : ℚ) := hnloQ
      _ = q * (q.den : ℚ) := hkey.symm
      _ < q * 2 ^ bits q.den := mul_lt_mul_of_pos_left hdhiQ hq
  -- zpow versions
  have h2 : (2 : ℚ) ≠ 0 := by norm_num
  have hzn : ((2 : ℚ) ^ bits q.num.natAbs) = (2 : ℚ) ^ ((bits q.num.natAbs : ℤ)) := by
    rw [zpow_natCast]
  have hzn1 : ((2 : ℚ) ^ (bits q.num.natAbs - 1)) = (2 : ℚ) ^ ((bits q.num.natAbs : ℤ) - 1) := by
    rw [show ((bits q.num.natAbs : ℤ) - 1) = ((bits q.num.natAbs - 1 : ℕ) : ℤ) by omega,
      zpow_natCast]
  have hzd : ((2 : ℚ) ^ bits q.den) = (2 : ℚ) ^ ((bits q.den : ℤ)) := by
    rw [zpow_natCast]
  have hzd1 : ((2 : ℚ) ^ (bits q.den - 1)) = (2 : ℚ) ^ ((bits q.den : ℤ) - 1) := by
    rw [show ((bits q.den : ℤ) - 1) = ((bits q.den - 1 : ℕ) : ℤ) by omega, zpow_natCast]
  set c : ℤ := (bits q.num.natAbs : ℤ) - (bits q.den : ℤ) with hc
  have hupc : q < (2 : ℚ) ^ (c + 1) := by
    have hp : (0 : ℚ) < (2 : ℚ) ^ ((bits q.den : ℤ) - 1) := zpow_pos (by norm_num) _
    rw [hzd1] at hup
    have hdiv := (lt_div_iff₀ hp).mpr hup
    have heq : (2 : ℚ) ^ ((bits q.num.natAbs : ℤ)) / (2 : ℚ) ^ ((bits q.den : ℤ) - 1)
        = (2 : ℚ) ^ (c + 1) := by
      rw [← zpow_sub₀ h2]
      congr 1
      omega
    rw [hzn, heq] at hdiv
    exact hdiv
  have hlowc : (2 : ℚ) ^ (c - 1) < q := by
    have hp : (0 : ℚ) < (2 : ℚ) ^ ((bits q.den : ℤ)) := zpow_pos (by norm_num) _
    rw [hzd] at hlow
    have hdiv := (div_lt_iff₀ hp).mpr hlow
    have heq : (2 : ℚ) ^ ((bits q.num.natAbs : ℤ) - 1) / (2 : ℚ) ^ ((bits q.den : ℤ))
        = (2 : ℚ) ^ (c - 1) := by
      rw [← zpow_sub₀ h2]
      congr 1
      omega
    rw [hzn1, heq] at hdiv
    exact hdiv
  -- unfold binade and split on its branch
  rw [show binade q = if (2 : ℚ) ^ c ≤ |q| then c else c - 1 from rfl]
  rw [abs_of_pos hq]
  split
  · constructor
    · assumption
    · exact hupc
  · constructor
    · exact le_of_lt hlowc
    · have hcc : c - 1 + 1 = c := by omega
      rw [hcc]
      exact lt_of_not_ge (by assumption)

lemma roundDoublePos_bounds (q : ℚ) (hq : 0 < q) :
    q - q / 2 ^ 53 ≤ roundDoublePos q ∧ roundDoublePos q ≤ q + q / 2 ^ 53 := by
  obtain ⟨he1, _⟩ := binade_spec q hq
  unfold roundDoublePos
  set e := binade q with hedef
  set scale : ℚ := (2 : ℚ) ^ (e - 52) with hscale
  set m := q / scale with hmdef
  set n : ℤ := ⌊m⌋ with hndef
  have hsp : (0 : ℚ) < scale := zpow_pos (by norm_num) _
  have hms : m * scale = q := div_mul_cancel₀ q (ne_of_gt hsp)
  have hfl : (n : ℚ) ≤ m := Int.floor_le m
  have hfu : m < (n : ℚ) + 1 := Int.lt_floor_add_one m
  have hrb : m - 1 / 2 ≤ ((if m - (n : ℚ) < 1 / 2 then n
        else if 1 / 2 < m - (n : ℚ) then n + 1
        else if n % 2 = 0 then n else n + 1 : ℤ) : ℚ)
      ∧ ((if m - (n : ℚ) < 1 / 2 then n
        else if 1 / 2 < m - (n : ℚ) then n + 1
        else if n % 2 = 0 then n else n + 1 : ℤ) : ℚ) ≤ m + 1 / 2 := by
    split
    · constructor <;> linarith
    · split
      · push_cast
        constructor <;> linarith
      · split
        · constructor <;> linarith
        · push_cast
          constructor <;> linarith
  have hs53 : scale / 2 ≤ q / 2 ^ 53 := by
    have hstep : scale / 2 = (2 : ℚ) ^ (e - 53) := by
      have hsp1 : (2 : ℚ) ^ (e - 52) = (2 : ℚ) ^ (e - 53) * 2 := by
        rw [show e - 52 = (e - 53) + 1 by omega, zpow_add_one₀ (by norm_num : (2 : ℚ) ≠ 0)]
      rw [hscale, hsp1]
      ring
    have hsplit : (2 : ℚ) ^ (e - 53) = (2 : ℚ) ^ e * (2 : ℚ) ^ (-53 : ℤ) := by
      rw [← zpow_add₀ (by norm_num : (2 : ℚ) ≠ 0) e (-53 : ℤ), Int.sub_eq_add_neg]
    have hneg : (2 : ℚ) ^ (-53 : ℤ) = ((2 : ℚ) ^ (53 : ℕ))⁻¹ := by
      rw [zpow_neg]
      congr 1
      rw [← zpow_natCast (2 : ℚ) 53]
      norm_num
    have hmono : (2 : ℚ) ^ e * (2 : ℚ) ^ (-53 : ℤ) ≤ q * (2 : ℚ) ^ (-53 : ℤ) :=
      mul_le_mul_of_nonneg_right he1 (le_of_lt (zpow_pos (by norm_num) _))
    rw [hstep, hsplit]
    calc (2 : ℚ) ^ e * (2 : ℚ) ^ (-53 : ℤ) ≤ q * (2 : ℚ) ^ (-53 : ℤ) := hmono
      _ = q / 2 ^ 53 := by rw [hneg, div_eq_mul_inv]
  constructor
  · have h1 : (m - 1 / 2) * scale ≤ _ * scale :=
      mul_le_mul_of_nonneg_right hrb.1 (le_of_lt hsp)
    have h2 : (m - 1 / 2) * scale = q - scale / 2 := by
      rw [sub_mul, hms]
      ring
    linarith
  · have h1 : _ * scale ≤ (m + 1 / 2) * scale :=
      mul_le_mul_of_nonneg_right hrb.2 (le_of_lt hsp)
    have h2 : (m + 1 / 2) * scale = q + scale / 2 := by
      rw [add_mul, hms]
      ring
    linarith

lemma roundDouble_bounds (q : ℚ) (hq : 0 < q) :
    q - q / 2 ^ 53 ≤ roundDouble q ∧ roundDouble q ≤ q + q / 2 ^ 53 := by
  unfold roundDouble
  rw [if_neg (ne_of_gt hq), if_neg (not_lt.mpr (le_of_lt hq))]
  exact roundDoublePos_bounds q hq

lemma zoomStep_bounds : 99 / 1000 ≤ zoomStep ∧ zoomStep ≤ 101 / 1000 := by
  obtain ⟨h1, h2⟩ := roundDouble_bounds (1 / 10) (by norm_num)
  have hsm : ((1 : ℚ) / 10) / 2 ^ 53 ≤ 1 / 1000 := by norm_num
  unfold zoomStep
  constructor <;> linarith

lemma zoomIn_bounds (x : ℚ) (h1 : 1 - 11 / 100 ≤ x) (h2 : x ≤ 2 + 11 / 100) :
    ∃ y, zoomIn (some x) = some y ∧ 1 - 11 / 100 ≤ y ∧ y ≤ 2 + 11 / 100 := by
  obtain ⟨hs1, hs2⟩ := zoomStep_bounds
  by_cases hlt : x < zoomMax
  · have hx2 : x < 2 := hlt
    have hz_pos : (0 : ℚ) < x + zoomStep := by linarith
    obtain ⟨hb1, hb2⟩ := roundDouble_bounds (x + zoomStep) hz_pos
    have hz3 : x + zoomStep ≤ 3 := by linarith
    have hsm : (x + zoomStep) / 2 ^ 53 ≤ 1 / 1000 := by
      rw [div_le_iff₀ (by positivity : (0 : ℚ) < 2 ^ 53)]
      have hbig : (3 : ℚ) ≤ 1 / 1000 * 2 ^ 53 := by norm_num
      linarith
    refine ⟨jsAdd x zoomStep, by simp [zoomIn, if_pos hlt], ?_, ?_⟩
    · unfold jsAdd
      linarith
    · unfold jsAdd
      linarith
  · exact ⟨x, by simp [zoomIn, if_neg hlt], h1, h2⟩

lemma zoomOut_bounds (x : ℚ) (h1 : 1 - 11 / 100 ≤ x) (h2 : x ≤ 2 + 11 / 100) :
    ∃ y, zoomOut (some x) = some y ∧ 1 - 11 / 100 ≤ y ∧ y ≤ 2 + 11 / 100 := by
  obtain ⟨hs1, hs2⟩ := zoomStep_bounds
  by_cases hgt : zoomMin < x
  · have hx1 : 1 < x := hgt
    have hz_pos : (0 : ℚ) < x - zoomStep := by linarith
    obtain ⟨hb1, hb2⟩ := roundDouble_bounds (x - zoomStep) hz_pos
    have hz3 : x - zoomStep ≤ 3 := by linarith
    have hsm : (x - zoomStep) / 2 ^ 53 ≤ 1 / 1000 := by
      rw [div_le_iff₀ (by positivity : (0 : ℚ) < 2 ^ 53)]
      have hbig : (3 : ℚ) ≤ 1 / 1000 * 2 ^ 53 := by norm_num
      linarith
    refine ⟨jsSub x zoomStep, by simp [zoomOut, if_pos hgt], ?_, ?_⟩
    · unfold jsSub
      linarith
    · unfold jsSub
      linarith
  · exact ⟨x, by simp [zoomOut, if_neg hgt], h1, h2⟩

lemma applyZoomOps_bounds : ∀ (ops : List ZoomOp) (x : ℚ),
    1 - 11 / 100 ≤ x → x ≤ 2 + 11 / 100 →
    ∃ y, applyZoomOps ops (some x) = some y ∧ 1 - 11 / 100 ≤ y ∧ y ≤ 2 + 11 / 100 := by
  intro ops
  induction ops with
  | nil => intro x h1 h2; exact ⟨x, rfl, h1, h2⟩
  | cons op ops ih =>
    intro x h1 h2
    cases op with
    | zin =>
      obtain ⟨y, hy, hy1, hy2⟩ := zoomIn_bounds x h1 h2
      obtain ⟨z, hz, hz1, hz2⟩ := ih y hy1 hy2
      refine ⟨z, ?_, hz1, hz2⟩
      rw [applyZoomOps_cons_zin, hy]
      exact hz
    | zout =>
      obtain ⟨y, hy, hy1, hy2⟩ := zoomOut_bounds x h1 h2
      obtain ⟨z, hz, hz1, hz2⟩ := ih y hy1 hy2
      refine ⟨z, ?_, hz1, hz2⟩
      rw [applyZoomOps_cons_zout, hy]
      exact hz

/-! ## Claim theorems -/

/-- C1 (counterexample): a persisted value that is invalid rather than
missing does not fall back to a hardcoded default. A stored hue string
with no digits makes `getAccentHue` return `NaN` (not the default `0`);
a non-numeric stored zoom string makes the constructed zoom factor `NaN`
(not `1`); and a stored mode outside the registry is adopted, making the
constructor fail instead of using the first registered theme. -/
theorem c1_invalid_values_no_default_cex :
    getAccentHue [("light-accent-hue", "not-a-number")] "light-accent-hue" = none
    ∧ (none : Option ℤ) ≠ some 0
    ∧ (appThemeInit [("zoom", "oops")] []).map (fun st => st.zoomFactor) = some none
    ∧ some (none : Option ℚ) ≠ some (some 1)
    ∧ appThemeInit [("mode", "purple")] [] = none :=
  ⟨rfl, by decide, rfl, by decide, rfl⟩

/-- C1 (amended): missing persisted values fall back to hardcoded
defaults — `getAccentHue` returns 0 when no hue is stored, and the
`AppTheme` constructor uses mode = first registered theme (`"light"`)
and zoom factor = 1 when the stored mode and zoom values are missing.
(Invalid stored values yield `NaN` or a constructor failure instead;
see the counterexample.) -/
theorem c1_missing_values_fall_back (store : JSStore) (doc : DocStyle) :
    (getItem store "light-accent-hue" = none → getAccentHue store "light-accent-hue" = some 0)
    ∧ (getItem store "mode" = none → getItem store "zoom" = none →
        (appThemeInit store doc).map (fun st => (st.effectMode, st.zoomFactor))
          = some ("light", some 1)) := by
  constructor
  · intro h
    rw [getAccentHue, h]
  · intro hm hz
    simp [appThemeInit, hm, hz, jsOrString, themesLookup]

/-- C1 (witness): the amended fallbacks, instantiated at empty storage. -/
theorem c1_missing_values_fall_back_witness :
    getAccentHue [] "light-accent-hue" = some 0
    ∧ (appThemeInit [] []).map (fun st => (st.effectMode, st.zoomFactor))
        = some ("light", some 1) :=
  ⟨(c1_missing_values_fall_back [] []).1 rfl, (c1_missing_values_fall_back [] []).2 rfl rfl⟩

/-- C2 (counterexample): starting from the double nearest 1.95, which
lies in [1,2], a single `zoomIn` produces a factor strictly above 2:
the guard tests the bound before adding the full (unclamped) step. -/
theorem c2_zoom_overshoot_cex :
    zoomMin ≤ roundDouble (39 / 20)
    ∧ roundDouble (39 / 20) ≤ zoomMax
    ∧ zoomIn (some (roundDouble (39 / 20)))
        = some (roundDouble (roundDouble (39 / 20) + zoomStep))
    ∧ zoomMax < roundDouble (roundDouble (39 / 20) + zoomStep) := by
  obtain ⟨hs1, hs2⟩ := zoomStep_bounds
  obtain ⟨ha1, ha2⟩ := roundDouble_bounds (39 / 20) (by norm_num)
  have hsm0 : ((39 : ℚ) / 20) / 2 ^ 53 ≤ 1 / 1000 := by norm_num
  have hx0lo : (39 : ℚ) / 20 - 1 / 1000 ≤ roundDouble (39 / 20) := by linarith
  have hx0hi : roundDouble (39 / 20) ≤ 39 / 20 + 1 / 1000 := by linarith
  have hguard : roundDouble (39 / 20) < zoomMax := by
    show roundDouble (39 / 20) < 2
    linarith
  have hz_pos : (0 : ℚ) < roundDouble (39 / 20) + zoomStep := by linarith
  obtain ⟨hb1, hb2⟩ := roundDouble_bounds (roundDouble (39 / 20) + zoomStep) hz_pos
  have hz3 : roundDouble (39 / 20) + zoomStep ≤ 3 := by linarith
  have hsm : (roundDouble (39 / 20) + zoomStep) / 2 ^ 53 ≤ 1 / 1000 := by
    rw [div_le_iff₀ (by positivity : (0 : ℚ) < 2 ^ 53)]
    have hbig : (3 : ℚ) ≤ 1 / 1000 * 2 ^ 53 := by norm_num
    linarith
  refine ⟨?_, ?_, ?_, ?_⟩
  · show (1 : ℚ) ≤ roundDouble (39 / 20)
    linarith
  · show roundDouble (39 / 20) ≤ 2
    linarith
  · simp [zoomIn, if_pos hguard, jsAdd]
  · show (2 : ℚ) < roundDouble (roundDouble (39 / 20) + zoomStep)
    linarith

/-- C2 (amended): for every sequence of `zoomIn`/`zoomOut` calls
starting from a factor in [1,2], the factor never leaves
[1 − 0.11, 2 + 0.11] — it can pass a bound by at most one
(rounding-inflated) step, since the guard runs before the unclamped
IEEE-754 addition — and `zoomIn` at any factor at or above the upper
bound (or `zoomOut` at or below the lower bound) leaves the factor
unchanged, so repeated calls at a bound are idempotent. -/
theorem c2_zoom_bounds_padded (ops : List ZoomOp) (x0 : ℚ)
    (h1 : 1 ≤ x0) (h2 : x0 ≤ 2) :
    (∃ y : ℚ, applyZoomOps ops (some x0) = some y
      ∧ 1 - 11 / 100 ≤ y ∧ y ≤ 2 + 11 / 100)
    ∧ (∀ x : ℚ, zoomMax ≤ x → zoomIn (some x) = some x)
    ∧ (∀ x : ℚ, x ≤ zoomMin → zoomOut (some x) = some x) := by
  refine ⟨applyZoomOps_bounds ops x0 (by linarith) (by linarith), ?_, ?_⟩
  · intro x hx
    simp [zoomIn, not_lt.mpr hx]
  · intro x hx
    simp [zoomOut, not_lt.mpr hx]

/-- C2 (witness): one `zoomIn` from the default factor 1 stays within
the padded interval, and the exact bounds are no-ops. -/
theorem c2_zoom_bounds_padded_witness :
    (∃ y : ℚ, applyZoomOps [ZoomOp.zin] (some 1) = some y
      ∧ 1 - 11 / 100 ≤ y ∧ y ≤ 2 + 11 / 100)
    ∧ zoomIn (some zoomMax) = some zoomMax
    ∧ zoomOut (some zoomMin) = some zoomMin :=
  ⟨(c2_zoom_bounds_padded [ZoomOp.zin] 1 le_rfl one_le_two).1,
    (c2_zoom_bounds_padded [ZoomOp.zin] 1 le_rfl one_le_two).2.1 zoomMax le_rfl,
    (c2_zoom_bounds_padded [ZoomOp.zin] 1 le_rfl one_le_two).2.2 zoomMin le_rfl⟩

/-- C3: for an invocation of `WavesEffect.destroyEffect` on an active
effect, the browser timer queue (deadline order, ties in registration
order) runs the ten fade steps first and the final callback last, so
`postAction` runs exactly once, strictly after every fade step (no
prefix of the execution that misses a scheduled task has run it), and
the effect object is disposed by then. -/
theorem c3_post_action_after_fade (e : EffectInstance) :
    ((timerSort (destroySchedule effectDelay effectInterval)).map Prod.snd
      = ((List.range effectInterval).map fun k => TimerTask.fadeStep (k + 1))
          ++ [TimerTask.finalDestroy])
    ∧ (runTasks effectInterval
        ((timerSort (destroySchedule effectDelay effectInterval)).map Prod.snd)
        { effect := some e, postActionCalls := 0 }).postActionCalls = 1
    ∧ (runTasks effectInterval
        ((timerSort (destroySchedule effectDelay effectInterval)).map Prod.snd)
        { effect := some e, postActionCalls := 0 }).effect = none
    ∧ (∀ k, k ≤ effectInterval →
        (runTasks effectInterval
          (((timerSort (destroySchedule effectDelay effectInterval)).map Prod.snd).take k)
          { effect := some e, postActionCalls := 0 }).postActionCalls = 0) := by
  have hord : (timerSort (destroySchedule effectDelay effectInterval)).map Prod.snd
      = ((List.range effectInterval).map fun k => TimerTask.fadeStep (k + 1))
          ++ [TimerTask.finalDestroy] := by decide
  have hall : ∀ k, k ≤ 10 →
      (((((List.range effectInterval).map fun k => TimerTask.fadeStep (k + 1))
        ++ [TimerTask.finalDestroy]).take k).count TimerTask.finalDestroy) = 0 := by decide
  refine ⟨hord, ?_, ?_, ?_⟩
  · rw [hord, runTasks_postActionCalls]
    show 0 + ((((List.range effectInterval).map fun k => TimerTask.fadeStep (k + 1))
      ++ [TimerTask.finalDestroy]).count TimerTask.finalDestroy) = 1
    decide
  · rw [hord]
    simp [runTasks, List.foldl_append, runTask]
  · intro k hk
    have hk10 : k ≤ 10 := hk
    rw [hord, runTasks_postActionCalls, hall k hk10]

/-- C3 (witness): the fade-then-destroy run instantiated at a concrete
effect instance, with the prefix property applied at the full prefix. -/
theorem c3_post_action_after_fade_witness :
    ((timerSort (destroySchedule effectDelay effectInterval)).map Prod.snd
      = ((List.range effectInterval).map fun k => TimerTask.fadeStep (k + 1))
          ++ [TimerTask.finalDestroy])
    ∧ (runTasks effectInterval
        ((timerSort (destroySchedule effectDelay effectInterval)).map Prod.snd)
        { effect := some { color := 0, opacity := none }, postActionCalls := 0 }).postActionCalls
        = 1
    ∧ (runTasks effectInterval
        ((timerSort (destroySchedule effectDelay effectInterval)).map Prod.snd)
        { effect := some { color := 0, opacity := none }, postActionCalls := 0 }).effect = none
    ∧ (runTasks effectInterval
        (((timerSort (destroySchedule effectDelay effectInterval)).map Prod.snd).take
          effectInterval)
        { effect := some { color := 0, opacity := none }, postActionCalls := 0 }).postActionCalls
        = 0 :=
  ⟨(c3_post_action_after_fade { color := 0, opacity := none }).1,
    (c3_post_action_after_fade { color := 0, opacity := none }).2.1,
    (c3_post_action_after_fade { color := 0, opacity := none }).2.2.1,
    (c3_post_action_after_fade { color := 0, opacity := none }).2.2.2 effectInterval
      (by decide)⟩

/-- C4 (counterexample): at hue 10^21, `hue.toString()` renders in JS
exponential notation, so `setAccentHue` persists `"1e+21"`; a fresh load
parses that with `parseInt` to 1 and computes `hsl(1, 100%, 60%)`, while
the color computed at the time of setting was `hsl(1e+21, 100%, 60%)` —
the store-then-load round trip does not preserve the hue or the color
for every integer hue. -/
theorem c4_exp_hue_round_trip_cex :
    intToString ((10 : ℤ) ^ 21) = "1e+21"
    ∧ jsParseInt "1e+21" = some 1
    ∧ getAccentHue (Theme.setAccentHue (mkLightTheme []) [] [] ((10 : ℤ) ^ 21)).2.2
        "light-accent-hue" = some 1
    ∧ (mkLightTheme
        (Theme.setAccentHue (mkLightTheme []) [] [] ((10 : ℤ) ^ 21)).2.2).themeAccent.value
      = "hsl(1, 100%, 60%)"
    ∧ (Theme.setAccentHue (mkLightTheme []) [] [] ((10 : ℤ) ^ 21)).1.themeAccent.value
      = "hsl(1e+21, 100%, 60%)"
    ∧ ("hsl(1, 100%, 60%)" : String) ≠ "hsl(1e+21, 100%, 60%)" :=
  ⟨by decide, by decide, by decide, by decide, by decide, by decide⟩

/-- C4 (amended): for every integer hue h of magnitude below 10^21 (the
range where `toString()` renders plain decimal digits), storing it with
`setAccentHue(h)` and constructing the theme anew from the resulting
storage reproduces both the hue and the same computed accent color
string as was computed at the time of setting (shown for the light
theme and, for the color, the dark theme as well: the decimal rendering
parses back to h via `parseInt`). For larger hues exponential notation
breaks the round trip (see the counterexample). -/
theorem c4_accent_round_trip (store : JSStore) (doc : DocStyle) (h : ℤ)
    (hh : h.natAbs < 10 ^ 21) :
    ((mkLightTheme (Theme.setAccentHue (mkLightTheme store) doc store h).2.2).themeAccent.value
      = (Theme.setAccentHue (mkLightTheme store) doc store h).1.themeAccent.value)
    ∧ ((mkLightTheme (Theme.setAccentHue (mkLightTheme store) doc store h).2.2).themeAccent.hue
      = some h)
    ∧ ((mkDarkTheme (Theme.setAccentHue (mkDarkTheme store) doc store h).2.2).themeAccent.value
      = (Theme.setAccentHue (mkDarkTheme store) doc store h).1.themeAccent.value) := by
  have hl := getAccentHue_setItem store "light-accent-hue" h hh
  have hd := getAccentHue_setItem store "dark-accent-hue" h hh
  refine ⟨?_, ?_, ?_⟩ <;>
    simp [Theme.setAccentHue, mkLightTheme, mkDarkTheme, mkThemeAccentProperty,
      ThemeAccentProperty.update, hl, hd]

/-- C4 (witness): the round trip at hue 120 over empty storage. -/
theorem c4_accent_round_trip_witness :
    ((mkLightTheme (Theme.setAccentHue (mkLightTheme []) [] [] 120).2.2).themeAccent.value
      = (Theme.setAccentHue (mkLightTheme []) [] [] 120).1.themeAccent.value)
    ∧ ((mkLightTheme (Theme.setAccentHue (mkLightTheme []) [] [] 120).2.2).themeAccent.hue
      = some 120)
    ∧ ((mkDarkTheme (Theme.setAccentHue (mkDarkTheme []) [] [] 120).2.2).themeAccent.value
      = (Theme.setAccentHue (mkDarkTheme []) [] [] 120).1.themeAccent.value) :=
  c4_accent_round_trip [] [] 120 (by decide)

/-- C5 (counterexample): at hue 0 the computed accent color string is
`hsl(0, 100%, 60%)` — the template puts a space after each comma — so
it is not exactly the claimed `hsl(0,100%,60%)`. -/
theorem c5_accent_format_cex :
    (mkThemeAccentProperty "--theme-accent" (some 0)).value = "hsl(0, 100%, 60%)"
    ∧ (mkThemeAccentProperty "--theme-accent" (some 0)).value ≠ "hsl(0,100%,60%)" := by
  constructor
  · rfl
  · decide

/-- C5 (amended): for every hue h, the computed accent color string
(after construction with h or after `update(h)`) is exactly
`hsl(h, 100%, 60%)` — with a space after each comma — with h's decimal
form substituted in. -/
theorem c5_accent_format (property : String) (h0 : Option ℤ) (h : ℤ) :
    (mkThemeAccentProperty property (some h)).value
      = "hsl(" ++ intToString h ++ ", 100%, 60%)"
    ∧ (ThemeAccentProperty.update (mkThemeAccentProperty property h0) (some h)).value
      = "hsl(" ++ intToString h ++ ", 100%, 60%)" := by
  have key : hslTemplate (some h) 100 60 = "hsl(" ++ intToString h ++ ", 100%, 60%)" := by
    rw [hslTemplate, show jsNumToString (some h) = intToString h from rfl,
      show natToString 100 = "100" from rfl, show natToString 60 = "60" from rfl]
    simp only [String.append_assoc]
    congr 1
  exact ⟨key, key⟩

/-- C6 (counterexample): `setTheme("constructor")` — a mode that is not
a key of the theme registry — is not a no-op: the inherited, truthy
`Object.prototype.constructor` passes the guard, so the mode and the
selected-theme reference are reassigned before the call throws a
`TypeError`; the current mode is left as `"constructor"`, not as it
was. -/
theorem c6_proto_mode_mutates_cex :
    ("constructor" ≠ "light" ∧ "constructor" ≠ "dark")
    ∧ (AppTheme.setTheme demoState "constructor").threw = true
    ∧ (AppTheme.setTheme demoState "constructor").state.effectMode = "constructor"
    ∧ demoState.effectMode = "light"
    ∧ (AppTheme.setTheme demoState "constructor").state.effectMode ≠ demoState.effectMode
    ∧ (AppTheme.setTheme demoState "constructor").state.themeSelected
      = SelectedTheme.protoRef :=
  ⟨by decide, rfl, rfl, rfl, by decide, rfl⟩

/-- C6 (amended): `setTheme(mode)` with a mode that is neither a
registry key nor an inherited `Object.prototype` member name changes
nothing at all: the state (mode, selected theme, applied style
variables, effect wrapper, storage) is returned unchanged and no
effect/storage event is emitted. For an inherited member name (such as
`"constructor"` or `"toString"`) the truthy non-theme value passes the
guard: the mode and selected theme are reassigned and the call throws
before touching styles, the effect wrapper, or storage. -/
theorem c6_set_theme_unknown (st : AppThemeState) (mode : String) :
    (lookupTheme st mode = JSLookup.undef →
      AppTheme.setTheme st mode = SetThemeResult.ok st [])
    ∧ (lookupTheme st mode = JSLookup.protoRef →
      AppTheme.setTheme st mode
        = SetThemeResult.thrown
            { st with effectMode := mode, themeSelected := SelectedTheme.protoRef } []) := by
  constructor
  · intro h
    simp only [AppTheme.setTheme, h]
  · intro h
    simp only [AppTheme.setTheme, h]

/-- C6 (witness): on a concrete light-mode state, `"solarized"` is a
complete no-op while `"constructor"` mutates mode and selection and
throws. -/
theorem c6_set_theme_unknown_witness :
    AppTheme.setTheme demoState "solarized" = SetThemeResult.ok demoState []
    ∧ AppTheme.setTheme demoState "constructor"
      = SetThemeResult.thrown
          { demoState with
              effectMode := "constructor"
              themeSelected := SelectedTheme.protoRef } [] :=
  ⟨(c6_set_theme_unknown demoState "solarized").1 rfl,
    (c6_set_theme_unknown demoState "constructor").2 rfl⟩

/-- C7: constructing `AppTheme` over storage with no persisted mode and
no persisted zoom yields mode = `"light"` (the first registered theme)
and zoom factor = 1. -/
theorem c7_init_defaults (store : JSStore) (doc : DocStyle)
    (hm : getItem store "mode" = none) (hz : getItem store "zoom" = none) :
    (appThemeInit store doc).map (fun st => (st.effectMode, st.zoomFactor))
      = some ("light", some 1) := by
  simp [appThemeInit, hm, hz, jsOrString, themesLookup]

/-- C7 (witness): the constructor on completely empty storage. -/
theorem c7_init_defaults_witness :
    (appThemeInit [] []).map (fun st => (st.effectMode, st.zoomFactor))
      = some ("light", some 1) :=
  c7_init_defaults [] [] rfl rfl

/-- C8: starting from the unset opacity (rendered as 1), each of the
`effectInterval` fade steps decreases the effective opacity by exactly
`1/effectInterval`, and after the final step the opacity is 0 (exact
rational arithmetic; the embedding models JS numbers as `ℚ`). -/
theorem c8_fade_linear :
    (∀ k : Nat, k < effectInterval →
      effectiveOpacity ((fadeOpacity effectInterval)^[k + 1] none)
        = effectiveOpacity ((fadeOpacity effectInterval)^[k] none)
            - 1 / (effectInterval : ℚ))
    ∧ (fadeOpacity effectInterval)^[effectInterval] (none : Option ℚ) = some 0 := by
  have hI : effectInterval = 10 := rfl
  constructor
  · intro k _
    rw [hI]
    rcases Nat.eq_zero_or_pos k with rfl | hpos
    · rw [fade_iterate 1 (by omega)]
      simp only [Function.iterate_zero, id_eq, effectiveOpacity, Option.getD_some,
        Option.getD_none]
      norm_num
    · rw [fade_iterate (k + 1) (by omega), fade_iterate k (by omega)]
      simp only [effectiveOpacity, Option.getD_some]
      push_cast
      ring
  · rw [hI, fade_iterate 10 (by omega)]
    norm_num

/-- C8 (witness): the first fade step drops the effective opacity from 1
to 9/10, and ten steps reach exactly 0. -/
theorem c8_fade_linear_witness :
    effectiveOpacity ((fadeOpacity effectInterval)^[0 + 1] none)
      = effectiveOpacity ((fadeOpacity effectInterval)^[0] none) - 1 / (effectInterval : ℚ)
    ∧ (fadeOpacity effectInterval)^[effectInterval] (none : Option ℚ) = some 0 :=
  ⟨c8_fade_linear.1 0 (by decide), c8_fade_linear.2⟩

/-- C9: `AppTheme.destroyEffect` synchronously clears the effect handle:
it returns the registered (not yet executed) fade schedule together with
a state on which `isEffectActive()` is already false — before any fade
timer fires and before `postAction` runs. -/
theorem c9_destroy_clears_handle (st : AppThemeState) (w : WavesEffectState)
    (h : st.effectSelected = some w) :
    AppTheme.destroyEffect st
      = some ({ st with effectSelected := none }, destroySchedule effectDelay effectInterval)
    ∧ AppTheme.isEffectActive { st with effectSelected := none } = false := by
  constructor
  · simp only [AppTheme.destroyEffect, h]
  · rfl

/-- C9 (witness): destroying the effect of a concrete active state. -/
theorem c9_destroy_clears_handle_witness :
    AppTheme.destroyEffect demoState
      = some ({ demoState with effectSelected := none },
          destroySchedule effectDelay effectInterval)
    ∧ AppTheme.isEffectActive { demoState with effectSelected := none } = false :=
  c9_destroy_clears_handle demoState demoWaves rfl

/-- C10: `setTheme(m)` with m already the current mode is not a no-op
when the effect is active: the call returns normally, the inner effect
instance is destroyed immediately and a new one is created tinted with
the (same) selected theme's effect color, and the unchanged mode is
written to storage again. -/
theorem c10_set_theme_same_mode_not_noop (st : AppThemeState) (w : WavesEffectState)
    (t : ThemeData) (m : String) (hm : lookupTheme st m = JSLookup.themeRef t)
    (hcur : st.effectMode = m) (hw : st.effectSelected = some w) :
    (AppTheme.setTheme st m).threw = false
    ∧ (AppTheme.setTheme st m).events
      = [ThemeEvent.effectDestroyed, ThemeEvent.effectCreated t.backgroundEffectColor,
         ThemeEvent.storeWrite "mode" m]
    ∧ (AppTheme.setTheme st m).state.effectMode = st.effectMode
    ∧ (AppTheme.setTheme st m).state.effectSelected
      = some (WavesEffect.createEffect { w with effect := none }
          (some t.backgroundEffectColor))
    ∧ getItem (AppTheme.setTheme st m).state.store "mode" = some m := by
  refine ⟨?_, ?_, ?_, ?_, ?_⟩ <;>
    simp [AppTheme.setTheme, hm, AppTheme.isEffectActive, hw, getItem_setItem, hcur,
      SetThemeResult.threw, SetThemeResult.events, SetThemeResult.state]

/-- C10 (witness): re-selecting the already-current light mode on a
concrete active state destroys and recreates the effect with the light
theme's tint and persists the mode again. -/
theorem c10_set_theme_same_mode_not_noop_witness :
    (AppTheme.setTheme demoState "light").threw = false
    ∧ (AppTheme.setTheme demoState "light").events
      = [ThemeEvent.effectDestroyed,
         ThemeEvent.effectCreated (mkLightTheme []).backgroundEffectColor,
         ThemeEvent.storeWrite "mode" "light"]
    ∧ (AppTheme.setTheme demoState "light").state.effectMode = demoState.effectMode
    ∧ (AppTheme.setTheme demoState "light").state.effectSelected
      = some (WavesEffect.createEffect { demoWaves with effect := none }
          (some (mkLightTheme []).backgroundEffectColor))
    ∧ getItem (AppTheme.setTheme demoState "light").state.store "mode" = some "light" :=
  c10_set_theme_same_mode_not_noop demoState demoWaves (mkLightTheme []) "light" rfl rfl rfl

end PerceiveUI
